import Mathlib

/-!
# Observer keygen, command glue, status report and consensus-layer types

A shallow embedding of

* `cmd/observer/observer/keygen.go` (`keygen`),
* `cmd/observer/observer/command.go` (`CommandFlags`, the `RunE` handler of
  `Command.ExecuteContext`),
* `cmd/observer/main.go` (`mainWithFlags`, `main`),
* `cmd/observer/reports/status_report.go` (`CreateStatusReport`),
* `cl/cltypes/types.go` (`SyncCommittee.Equal`, `BeaconStateBellatrix.BlockRoot`).

Goroutines and channels of `keygen` are embedded as an interleaving step
function on an explicit state; functions of other packages are parameters.
-/

namespace Observer

/-! ## keygen.go -/

/-- The struct `result` declared inside `keygen`. -/
structure result (K : Type) where
  key : K
  distance : Int
deriving DecidableEq, Repr

/-- The two functions of package `p2p/enode` that `keygen` calls; the package
is outside the embedded files, so they are parameters of the embedding. -/
structure Enode (K I : Type) where
  PubkeyToIDV4 : K → I
  LogDist : I → I → Int

/-- Go's `keysAtDist[d] = k` on `map[int]*ecdsa.PublicKey`; the map is an
association list that holds each distance at most once. -/
def mapSet {K : Type} : List (Int × K) → Int → K → List (Int × K)
  | [], d, k => [(d, k)]
  | (d', k') :: rest, d, k =>
    if d' = d then (d, k) :: rest else (d', k') :: mapSet rest d k

/-- Go's `keysAtDist[d]` lookup (`none` when the distance is absent). -/
def mapGet {K : Type} : List (Int × K) → Int → Option K
  | [], _ => none
  | (d', k') :: rest, d => if d' = d then some k' else mapGet rest d

/-- Where one worker goroutine of `keygen` stands. -/
inductive WorkerPC (K : Type)
  /-- about to evaluate the loop condition `ctx.Err() == nil` -/
  | loopHead
  /-- at the `select`, holding the `result` it wants to send -/
  | selecting (r : result K)
  /-- left the `for` loop; the goroutine is finished -/
  | exited
deriving DecidableEq, Repr

/-- Where the collector loop of `keygen` (the calling goroutine) stands. -/
inductive CollectorPC
  /-- about to evaluate the loop condition `ctx.Err() == nil` -/
  | loopHead
  /-- at the `select` over `generatedKeys` and `ctx.Done()` -/
  | selecting
  /-- left the `for` loop; `keygen` builds `keys` and returns -/
  | exited
deriving DecidableEq, Repr

/-- The shared state of one `keygen` call. `received` and `selects` are
history variables: the results the collector took from the channel, in order,
and the number of `select` statements the collector completed. -/
structure KeygenState (K : Type) where
  ctxDone : Bool
  cpus : Nat
  generatedKeys : List (result K)
  workers : List (WorkerPC K)
  collector : CollectorPC
  keysAtDist : List (Int × K)
  received : List (result K)
  selects : Nat
deriving DecidableEq, Repr

/-- The loop `for i := 0; i < cpus; i++ { go func() {...}() }`: every turn
starts one worker goroutine, which stands at its loop head. -/
def spawnWorkers {K : Type} (cpus : Nat) (i : Nat) (ws : List (WorkerPC K)) :
    List (WorkerPC K) :=
  if i < cpus then spawnWorkers cpus (i + 1) (ws ++ [WorkerPC.loopHead]) else ws
termination_by cpus - i

/-- The state of `keygen` once the workers are started: `cpus` is
`runtime.GOMAXPROCS(-1)`, the channel `generatedKeys` has that capacity and is
empty, `keysAtDist` is the empty map. The function has no other input that
sets the number of workers. -/
def keygenStart (K : Type) (gomaxprocs : Nat) : KeygenState K :=
  { ctxDone := false
    cpus := gomaxprocs
    generatedKeys := []
    workers := spawnWorkers gomaxprocs 0 []
    collector := CollectorPC.loopHead
    keysAtDist := []
    received := []
    selects := 0 }

/-- One atomic move of the `keygen` goroutines or of the context. -/
inductive Event (K : Type)
  /-- the timeout elapses or the parent context is canceled -/
  | ctxDone
  /-- worker `i` evaluates `ctx.Err() == nil` and, when it holds, calls
  `crypto.GenerateKey()`; `gen` is that call's outcome, `none` for an error -/
  | workerLoop (i : Nat) (gen : Option K)
  /-- the `select` of worker `i` takes `generatedKeys <- result{key, distance}` -/
  | workerSend (i : Nat)
  /-- the `select` of worker `i` takes `<-ctx.Done()` -/
  | workerCtxDone (i : Nat)
  /-- the collector evaluates `ctx.Err() == nil` -/
  | collectorLoop
  /-- the `select` of the collector takes `res := <-generatedKeys` -/
  | collectorRecv
  /-- the `select` of the collector takes `<-ctx.Done()` -/
  | collectorCtxDone
deriving DecidableEq, Repr

/-- One step of `keygen`; `none` when the move is not enabled (the goroutine
is elsewhere, the channel is full or empty, the context is not done). Inside
`select` a `break` leaves the `select` only, so both cases lead back to the
loop head. -/
def step {K I : Type} (en : Enode K I) (targetKey : K) (s : KeygenState K) :
    Event K → Option (KeygenState K)
  | Event.ctxDone => some { s with ctxDone := true }
  | Event.workerLoop i gen =>
    match s.workers[i]? with
    | some WorkerPC.loopHead =>
      if s.ctxDone then some { s with workers := s.workers.set i WorkerPC.exited }
      else
        match gen with
        | none => some { s with workers := s.workers.set i WorkerPC.exited }
        | some key =>
          let targetID := en.PubkeyToIDV4 targetKey
          let id := en.PubkeyToIDV4 key
          let distance := en.LogDist targetID id
          some { s with workers := s.workers.set i (WorkerPC.selecting ⟨key, distance⟩) }
    | _ => none
  | Event.workerSend i =>
    match s.workers[i]? with
    | some (WorkerPC.selecting r) =>
      if s.generatedKeys.length < s.cpus then
        some { s with generatedKeys := s.generatedKeys ++ [r]
                      workers := s.workers.set i WorkerPC.loopHead }
      else none
    | _ => none
  | Event.workerCtxDone i =>
    match s.workers[i]? with
    | some (WorkerPC.selecting _) =>
      if s.ctxDone then some { s with workers := s.workers.set i WorkerPC.loopHead }
      else none
    | _ => none
  | Event.collectorLoop =>
    match s.collector with
    | CollectorPC.loopHead =>
      some { s with collector := if s.ctxDone then CollectorPC.exited else CollectorPC.selecting }
    | _ => none
  | Event.collectorRecv =>
    match s.collector, s.generatedKeys with
    | CollectorPC.selecting, res :: rest =>
      some { s with generatedKeys := rest
                    keysAtDist := mapSet s.keysAtDist res.distance res.key
                    received := s.received ++ [res]
                    selects := s.selects + 1
                    collector := CollectorPC.loopHead }
    | _, _ => none
  | Event.collectorCtxDone =>
    match s.collector with
    | CollectorPC.selecting =>
      if s.ctxDone then
        some { s with selects := s.selects + 1, collector := CollectorPC.loopHead }
      else none
    | _ => none

/-- A schedule run from `s`; a move that is not enabled leaves the state as
it is. -/
def exec {K I : Type} (en : Enode K I) (targetKey : K) (s : KeygenState K)
    (es : List (Event K)) : KeygenState K :=
  es.foldl (fun s e => (step en targetKey s e).getD s) s

/-- The tail of `keygen`: once the collector loop is left, `keys` gets every
value of `keysAtDist` (Go ranges over a map in no fixed order; here the order
is that of the association list). -/
def keygenReturn {K : Type} (s : KeygenState K) : Option (List K) :=
  match s.collector with
  | CollectorPC.exited => some (s.keysAtDist.map Prod.snd)
  | _ => none

/-- A whole `keygen` call under a schedule. -/
def keygen {K I : Type} (en : Enode K I) (gomaxprocs : Nat) (targetKey : K)
    (es : List (Event K)) : Option (List K) :=
  keygenReturn (exec en targetKey (keygenStart K gomaxprocs) es)

/-- The collector's loop body seen from outside: the map after taking the
results `rs` one after the other, starting from `m`. -/
def collect {K : Type} (m : List (Int × K)) (rs : List (result K)) : List (Int × K) :=
  rs.foldl (fun m res => mapSet m res.distance res.key) m

/-- The key of the last result of `rs` whose distance is `d`. -/
def lastKeyAt {K : Type} (rs : List (result K)) (d : Int) : Option K :=
  ((rs.filter (fun r => decide (r.distance = d))).getLast?).map (fun r => r.key)

/-- The moves of the collector goroutine. -/
def Event.isCollector {K : Type} : Event K → Bool
  | Event.collectorLoop => true
  | Event.collectorRecv => true
  | Event.collectorCtxDone => true
  | _ => false

/-- The moves of worker `i`. -/
def Event.isWorker {K : Type} (i : Nat) : Event K → Bool
  | Event.workerLoop j _ => decide (j = i)
  | Event.workerSend j => decide (j = i)
  | Event.workerCtxDone j => decide (j = i)
  | _ => false

/-- How many of its own moves the collector is from leaving the loop once the
context is done. -/
def CollectorPC.remaining : CollectorPC → Nat
  | CollectorPC.exited => 0
  | CollectorPC.loopHead => 1
  | CollectorPC.selecting => 2

/-- How many of its own moves a worker is from leaving the loop once the
context is done. -/
def WorkerPC.remaining {K : Type} : WorkerPC K → Nat
  | WorkerPC.exited => 0
  | WorkerPC.loopHead => 1
  | WorkerPC.selecting _ => 2

/-- Bit length of `n` with `fuel` halvings. -/
def bitLenAux : Nat → Nat → Nat
  | 0, _ => 0
  | fuel + 1, n => if n = 0 then 0 else bitLenAux fuel (n / 2) + 1

/-- Modelled from the spec: a stand-in for package `p2p/enode`, which is not
among the embedded files. Identifiers are natural numbers and the log-distance
is the "XOR-metric integer bucket index" of the glossary, the bit length of
the XOR of two identifiers. Used only to evaluate the embedding. -/
def demoEnode : Enode Nat Nat :=
  { PubkeyToIDV4 := fun k => k
    LogDist := fun a b => (bitLenAux (a ^^^ b) (a ^^^ b) : Nat) }

/-- A schedule of two workers: both generate a key, both send, the collector
receives both, worker 0 generates and sends a third key, the collector
receives it, the timeout fires, the collector leaves. -/
def demoSchedule : List (Event Nat) :=
  [ Event.workerLoop 0 (some 5), Event.workerLoop 1 (some 6),
    Event.collectorLoop, Event.workerSend 1, Event.workerSend 0,
    Event.collectorRecv, Event.collectorLoop, Event.collectorRecv,
    Event.workerLoop 0 (some 7), Event.workerSend 0,
    Event.collectorLoop, Event.collectorRecv,
    Event.ctxDone, Event.collectorLoop ]

/-! ## command.go -/

/-- The struct `CommandFlags`; `time.Duration` is a count of nanoseconds; a
`uint` field is a natural number, an `int` field an integer. -/
structure CommandFlags where
  DataDir : String
  Chain : String
  ListenPort : Int
  NATDesc : String
  NetRestrict : String
  NodeKeyFile : String
  NodeKeyHex : String
  Bootnodes : String
  CrawlerConcurrency : Nat
  RefreshTimeout : Int
  KeygenTimeout : Int
  KeygenConcurrency : Nat
  StatusLogPeriod : Int
deriving DecidableEq, Repr

/-- One second as `time.Duration`. -/
def second : Int := 1000000000

/-- One hour as `time.Duration`. -/
def hour : Int := 3600 * second

/-- The flag values `NewCommand` registers as defaults, for the flags whose
default is written in `command.go` itself (`withCrawlerConcurrency`,
`withRefreshTimeout`, `withKeygenTimeout`, `withKeygenConcurrency`,
`withStatusLogPeriod`); the defaults of the other flags come from package
`utils` and are arguments here. -/
def defaultFlags (gomaxprocs : Nat) (dataDir chain : String) (listenPort : Int)
    (nat netRestrict nodeKeyFile nodeKeyHex bootnodes : String) : CommandFlags :=
  { DataDir := dataDir
    Chain := chain
    ListenPort := listenPort
    NATDesc := nat
    NetRestrict := netRestrict
    NodeKeyFile := nodeKeyFile
    NodeKeyHex := nodeKeyHex
    Bootnodes := bootnodes
    CrawlerConcurrency := (gomaxprocs * 10) % 2 ^ 64
    RefreshTimeout := 2 * 24 * hour
    KeygenTimeout := 2 * second
    KeygenConcurrency := 2
    StatusLogPeriod := 10 * second }

/-- The closure `ExecuteContext` installs as `command.command.RunE`. The
arguments `errorsIs` and `canceled` are `errors.Is` and `context.Canceled` of
the Go standard library; `none` is the nil error. -/
def RunE {E C : Type} (errorsIs : Option E → E → Bool) (canceled : E)
    (runFunc : C → CommandFlags → Option E) (ctx : C) (flags : CommandFlags) : Option E :=
  let err := runFunc ctx flags
  if errorsIs err canceled then none else err

/-! ## main.go -/

/-- The condition under which `main` calls `utils.Fatalf`:
`(err != nil) && !errors.Is(err, context.Canceled)`. -/
def mainFatal {E : Type} (errorsIs : Option E → E → Bool) (canceled : E)
    (err : Option E) : Bool :=
  err.isSome && !errorsIs err canceled

/-- The struct literal `observer.CrawlerConfig{...}` of `mainWithFlags`. -/
structure CrawlerConfig (Nodes Key : Type) where
  Chain : String
  Bootnodes : Nodes
  PrivateKey : Key
  ConcurrencyLimit : Nat
  RefreshTimeout : Int
  MaxPingTries : Nat
  StatusLogPeriod : Int
  HandshakeRefreshTimeout : Int
  MaxHandshakeTries : Nat
  KeygenTimeout : Int
  KeygenConcurrency : Nat
deriving DecidableEq, Repr

/-- The calls into other packages that `mainWithFlags` makes, in the order of
the source text. -/
inductive MainCall
  | NewServer
  | NewDBSQLite
  | Listen
  | StatusLoggerLoop
  | NewCrawler
  | Run
deriving DecidableEq, Repr

/-- The functions of other packages that `mainWithFlags` calls. A Go result
`(T, error)` whose value is used only when the error is nil is an `Except`. -/
structure MainDeps (E C Server Store Disc Crawler Nodes Key : Type) where
  NewServer : CommandFlags → Except E Server
  Join : String → String → String
  NewDBSQLite : String → Except E Store
  Listen : Server → C → Except E Disc
  Bootnodes : Server → Nodes
  PrivateKey : Server → Key
  NewCrawler : Disc → Store → CrawlerConfig Nodes Key → Except E Crawler
  Run : Crawler → C → Option E

/-- Record a call in front of what follows it. -/
def logged {Call R : Type} (c : Call) (p : List Call × R) : List Call × R :=
  (c :: p.1, p.2)

/-- The struct literal `crawlerConfig := observer.CrawlerConfig{...}` of
`mainWithFlags`, with its three local constants. -/
def crawlerConfig {Nodes Key : Type} (flags : CommandFlags) (bootnodes : Nodes)
    (privateKey : Key) : CrawlerConfig Nodes Key :=
  let maxPingTries : Nat := 3
  let handshakeRefreshTimeout : Int := 20 * 24 * hour
  let maxHandshakeTries : Nat := 3
  { Chain := flags.Chain
    Bootnodes := bootnodes
    PrivateKey := privateKey
    ConcurrencyLimit := flags.CrawlerConcurrency
    RefreshTimeout := flags.RefreshTimeout
    MaxPingTries := maxPingTries
    StatusLogPeriod := flags.StatusLogPeriod
    HandshakeRefreshTimeout := handshakeRefreshTimeout
    MaxHandshakeTries := maxHandshakeTries
    KeygenTimeout := flags.KeygenTimeout
    KeygenConcurrency := flags.KeygenConcurrency }

/-- The function `mainWithFlags`: the calls it made, in order, and the error
it returns. -/
def mainWithFlags {E C Server Store Disc Crawler Nodes Key : Type}
    (deps : MainDeps E C Server Store Disc Crawler Nodes Key) (ctx : C)
    (flags : CommandFlags) : List MainCall × Option E :=
  logged MainCall.NewServer <|
  match deps.NewServer flags with
  | Except.error err => ([], some err)
  | Except.ok server =>
    logged MainCall.NewDBSQLite <|
    match deps.NewDBSQLite (deps.Join flags.DataDir "observer.sqlite") with
    | Except.error err => ([], some err)
    | Except.ok db =>
      logged MainCall.Listen <|
      match deps.Listen server ctx with
      | Except.error err => ([], some err)
      | Except.ok discV4 =>
        logged MainCall.StatusLoggerLoop <|
        logged MainCall.NewCrawler <|
        match deps.NewCrawler discV4 db
            (crawlerConfig flags (deps.Bootnodes server) (deps.PrivateKey server)) with
        | Except.error err => ([], some err)
        | Except.ok crawler => ([MainCall.Run], deps.Run crawler ctx)

/-- A stand-in for Go error values, used only to evaluate the embedding: a
sentinel made by `errors.New`, or an error that wraps another one. -/
inductive GoError
  | sentinel (name : String)
  | wrapped (msg : String) (inner : GoError)
deriving DecidableEq, Repr

/-- The sentinel `context.Canceled`. -/
def contextCanceled : GoError := GoError.sentinel "context canceled"

/-- The chain walk of `errors.Is` on the stand-in errors. -/
def goErrorsIsAux : GoError → GoError → Bool
  | GoError.sentinel n, target => decide (GoError.sentinel n = target)
  | GoError.wrapped m inner, target =>
    decide (GoError.wrapped m inner = target) || goErrorsIsAux inner target

/-- The function `errors.Is` on the stand-in errors: a nil error matches no
target. -/
def goErrorsIs : Option GoError → GoError → Bool
  | none, _ => false
  | some e, target => goErrorsIsAux e target

/-- Dependencies under which every construction step succeeds and the crawl
ends with a wrapped cancellation. -/
def demoDepsOk : MainDeps GoError Unit Unit Unit Unit Unit Unit Unit :=
  { NewServer := fun _ => Except.ok ()
    Join := fun a b => a ++ "/" ++ b
    NewDBSQLite := fun _ => Except.ok ()
    Listen := fun _ _ => Except.ok ()
    Bootnodes := fun _ => ()
    PrivateKey := fun _ => ()
    NewCrawler := fun _ _ _ => Except.ok ()
    Run := fun _ _ => some (GoError.wrapped "crawler" contextCanceled) }

/-- Dependencies under which the listener cannot bind. -/
def demoDepsListenFails : MainDeps GoError Unit Unit Unit Unit Unit Unit Unit :=
  { demoDepsOk with Listen := fun _ _ => Except.error (GoError.sentinel "bind: address in use") }

/-- The flags of a run with all defaults on an eight-thread machine. -/
def demoFlags : CommandFlags :=
  defaultFlags 8 "/data" "mainnet" 30303 "any" "" "" "" ""

end Observer

namespace Reports

/-! ## reports/status_report.go -/

/-- The struct `StatusReport`. -/
structure StatusReport where
  TotalCount : Nat
  DistinctIPCount : Nat
deriving DecidableEq, Repr

/-- The two methods of the interface `observer.DB` that `CreateStatusReport`
calls. -/
structure DB (E C : Type) where
  CountNodes : C → Except E Nat
  CountIPs : C → Except E Nat

/-- The store calls `CreateStatusReport` makes. -/
inductive DBCall
  | CountNodes
  | CountIPs
deriving DecidableEq, Repr

/-- The function `CreateStatusReport`: the store calls it made, in order, and
the pair `(*StatusReport, error)` it returns, `none` for nil. -/
def CreateStatusReport {E C : Type} (ctx : C) (db : DB E C) :
    List DBCall × (Option StatusReport × Option E) :=
  Observer.logged DBCall.CountNodes <|
  match db.CountNodes ctx with
  | Except.error err => ([], (none, some err))
  | Except.ok totalCount =>
    Observer.logged DBCall.CountIPs <|
    match db.CountIPs ctx with
    | Except.error err => ([], (none, some err))
    | Except.ok distinctIPCount =>
      let report : StatusReport := ⟨totalCount, distinctIPCount⟩
      ([], (some report, none))

/-- A store with 120 nodes on 95 addresses. -/
def demoDB : DB String Unit :=
  { CountNodes := fun _ => Except.ok 120
    CountIPs := fun _ => Except.ok 95 }

/-- A store whose node count fails. -/
def demoDBNodesFail : DB String Unit :=
  { CountNodes := fun _ => Except.error "no such table: nodes"
    CountIPs := fun _ => Except.ok 95 }

/-- A store whose address count fails. -/
def demoDBIPsFail : DB String Unit :=
  { CountNodes := fun _ => Except.ok 120
    CountIPs := fun _ => Except.error "database is locked" }

end Reports

namespace Cltypes

/-! ## cl/cltypes/types.go -/

/-- A Go `byte`. -/
abbrev Byte := Fin 256

/-- The array type `[48]byte`. -/
abbrev Bytes48 := { l : List Byte // l.length = 48 }

/-- The array type `[32]byte`. -/
abbrev Bytes32 := { l : List Byte // l.length = 32 }

/-- The array type `[4]byte`. -/
abbrev Bytes4 := { l : List Byte // l.length = 4 }

/-- The function `bytes.Equal` on two slices: same length and same bytes. -/
def bytesEqual : List Byte → List Byte → Bool
  | [], [] => true
  | x :: xs, y :: ys => decide (x = y) && bytesEqual xs ys
  | _, _ => false

/-- The struct `SyncCommittee`. -/
structure SyncCommittee where
  PubKeys : List Bytes48
  AggregatePublicKey : Bytes48
deriving DecidableEq

/-- The loop `for i := range s.PubKeys` of `Equal`, from index `i` on. The
length check before the loop makes `s2.PubKeys[i]` an index in range. -/
def SyncCommittee.equalFrom (a b : List Bytes48) (hlen : a.length = b.length) (i : Nat) : Bool :=
  if h : i < a.length then
    if !bytesEqual (a.get ⟨i, h⟩).val (b.get ⟨i, hlen ▸ h⟩).val then false
    else SyncCommittee.equalFrom a b hlen (i + 1)
  else true
termination_by a.length - i

/-- The method `(s *SyncCommittee) Equal(s2 *SyncCommittee) bool` on two
non-nil receivers. -/
def SyncCommittee.Equal (s s2 : SyncCommittee) : Bool :=
  if !bytesEqual s.AggregatePublicKey.val s2.AggregatePublicKey.val then false
  else if h : s.PubKeys.length ≠ s2.PubKeys.length then false
  else SyncCommittee.equalFrom s.PubKeys s2.PubKeys (not_not.mp h) 0

/-- The struct `Fork`. -/
structure Fork where
  PreviousVersion : Bytes4
  CurrentVersion : Bytes4
  Epoch : Nat
deriving DecidableEq

/-- The struct `Validator`. -/
structure Validator where
  PublicKey : Bytes48
  WithdrawalCredentials : List Byte
  EffectiveBalance : Nat
  Slashed : Bool
  ActivationEligibilityEpoch : Nat
  ActivationEpoch : Nat
  ExitEpoch : Nat
  WithdrawableEpoch : Nat
deriving DecidableEq

/-- The struct `BeaconBlockHeader`, with the five fields `BlockRoot` sets. -/
structure BeaconBlockHeader where
  Slot : Nat
  ProposerIndex : Nat
  ParentRoot : Bytes32
  BodyRoot : Bytes32
  Root : Bytes32
deriving DecidableEq

/-- The struct `BeaconStateBellatrix`. A pointer field is an `Option`, `none`
for nil. The types `Eth1Data`, `Checkpoint` and `types.Header` are declared in
other files and are the parameters `Eth1DataT`, `CheckpointT`, `HeaderT`. -/
structure BeaconStateBellatrix (Eth1DataT CheckpointT HeaderT : Type) where
  GenesisTime : Nat := 0
  GenesisValidatorsRoot : Bytes32
  Slot : Nat := 0
  Fork : Option Fork := none
  LatestBlockHeader : Option BeaconBlockHeader := none
  BlockRoots : List Bytes32 := []
  StateRoots : List Bytes32 := []
  HistoricalRoots : List Bytes32 := []
  Eth1Data : Option Eth1DataT := none
  Eth1DataVotes : List (Option Eth1DataT) := []
  Eth1DepositIndex : Nat := 0
  Validators : List (Option Validator) := []
  Balances : List Nat := []
  RandaoMixes : List Bytes32 := []
  Slashings : List Nat := []
  PreviousEpochParticipation : List Byte := []
  CurrentEpochParticipation : List Byte := []
  JustificationBits : List Byte := []
  PreviousJustifiedCheckpoint : Option CheckpointT := none
  CurrentJustifiedCheckpoint : Option CheckpointT := none
  FinalizedCheckpoint : Option CheckpointT := none
  InactivityScores : List Nat := []
  CurrentSyncCommittee : Option SyncCommittee := none
  NextSyncCommittee : Option SyncCommittee := none
  LatestExecutionPayloadHeader : Option HeaderT := none

/-- The zero value `[32]byte{}`. -/
def zeroBytes32 : Bytes32 := ⟨List.replicate 32 0, by simp⟩

/-- The method `(b *BeaconStateBellatrix) BlockRoot() ([32]byte, error)`. The
two `HashTreeRoot` methods are generated code outside the embedded file and are
parameters, each returning the Go pair `([32]byte, error)`. The result is
`none` when the method panics on the nil `LatestBlockHeader`. -/
def BeaconStateBellatrix.BlockRoot {E Eth1Data Checkpoint Header : Type}
    (stateHashTreeRoot : BeaconStateBellatrix Eth1Data Checkpoint Header → Bytes32 × Option E)
    (headerHashTreeRoot : BeaconBlockHeader → Bytes32 × Option E)
    (b : BeaconStateBellatrix Eth1Data Checkpoint Header) : Option (Bytes32 × Option E) :=
  let (stateRoot, err) := stateHashTreeRoot b
  if err.isSome then some (zeroBytes32, none)
  else
    match b.LatestBlockHeader with
    | none => none
    | some latest =>
      let tempHeader : BeaconBlockHeader :=
        { Slot := latest.Slot
          ProposerIndex := latest.ProposerIndex
          ParentRoot := latest.ParentRoot
          BodyRoot := latest.BodyRoot
          Root := stateRoot }
      some (headerHashTreeRoot tempHeader)

/-- A 32-byte array filled with one byte. -/
def fillBytes32 (x : Byte) : Bytes32 := ⟨List.replicate 32 x, by simp⟩

/-- A 48-byte array filled with one byte. -/
def fillBytes48 (x : Byte) : Bytes48 := ⟨List.replicate 48 x, by simp⟩

/-- A stand-in for the generated `HashTreeRoot` of the state, used only to
evaluate the embedding: it enforces the tag `ssz-size:"8192,32"` of
`BlockRoots` and fails on any other length. -/
def demoStateHashTreeRoot (b : BeaconStateBellatrix Unit Unit Unit) : Bytes32 × Option String :=
  if b.BlockRoots.length ≠ 8192 then (zeroBytes32, some "incorrect vector length")
  else (fillBytes32 7, none)

/-- A stand-in for the generated `HashTreeRoot` of a header, used only to
evaluate the embedding: it never fails and mixes slot and state root into the
first byte. -/
def demoHeaderHashTreeRoot (h : BeaconBlockHeader) : Bytes32 × Option String :=
  (fillBytes32 (Fin.ofNat (1 + h.Slot + (h.Root.val.headD 0).val)), none)

/-- A header at slot 9. -/
def demoHeader : BeaconBlockHeader :=
  { Slot := 9
    ProposerIndex := 3
    ParentRoot := fillBytes32 1
    BodyRoot := fillBytes32 2
    Root := zeroBytes32 }

/-- A state with a latest block header and an empty `BlockRoots` slice. -/
def demoState : BeaconStateBellatrix Unit Unit Unit :=
  { GenesisValidatorsRoot := zeroBytes32
    Slot := 10
    LatestBlockHeader := some demoHeader }

/-- A committee of two keys. -/
def demoCommittee : SyncCommittee :=
  { PubKeys := [fillBytes48 1, fillBytes48 2]
    AggregatePublicKey := fillBytes48 3 }

/-- The same aggregate key and the same number of keys, with a different
second key. -/
def demoCommitteeOther : SyncCommittee :=
  { PubKeys := [fillBytes48 1, fillBytes48 4]
    AggregatePublicKey := fillBytes48 3 }

end Cltypes

namespace Observer

/-! ## keygen: what the proofs speak about -/

/-- A result is exact for a target when its distance is the log-distance
between the identifier of the target and the identifier of its key. -/
def result.Exact {K I : Type} (en : Enode K I) (targetKey : K) (r : result K) : Prop :=
  en.LogDist (en.PubkeyToIDV4 targetKey) (en.PubkeyToIDV4 r.key) = r.distance

/-- The invariant of `keygen`: every result in the channel, in the hands of a
worker or already received is exact, and the map is what the collector's loop
body makes of the received results. -/
def KeygenState.Inv {K I : Type} (en : Enode K I) (targetKey : K) (s : KeygenState K) : Prop :=
  (∀ r ∈ s.generatedKeys, r.Exact en targetKey)
  ∧ (∀ r, WorkerPC.selecting r ∈ s.workers → r.Exact en targetKey)
  ∧ (∀ r ∈ s.received, r.Exact en targetKey)
  ∧ s.keysAtDist = collect [] s.received

/-- One if the collector stands at its `select`, zero otherwise: the number
of `select` statements it can still complete once the context is done. -/
def CollectorPC.pendingSelects : CollectorPC → Nat
  | CollectorPC.selecting => 1
  | _ => 0

/-- What a run that starts in `s` with the context done can have made of the
collector by the time it is in `s1`: the context is still done, the collector
is no further from its exit, and it took at most the one result of the
`select` it stood at. -/
def KeygenState.AfterDone {K : Type} (s s1 : KeygenState K) : Prop :=
  s1.ctxDone = true
  ∧ s1.workers.length = s.workers.length
  ∧ s1.collector.remaining ≤ s.collector.remaining
  ∧ s1.selects + s1.collector.pendingSelects ≤ s.selects + s.collector.pendingSelects
  ∧ ∃ extra : List (result K),
      s1.received = s.received ++ extra
      ∧ s1.keysAtDist = collect s.keysAtDist extra
      ∧ extra.length + s1.collector.pendingSelects ≤ s.collector.pendingSelects

/-- A state in which the timeout has fired while the collector stands at its
`select`, one result waits in the channel, worker 0 stands at its `select`
and worker 1 at its loop head. -/
def demoDoneState : KeygenState Nat :=
  { ctxDone := true
    cpus := 2
    generatedKeys := [⟨6, 2⟩]
    workers := [WorkerPC.selecting ⟨7, 2⟩, WorkerPC.loopHead]
    collector := CollectorPC.selecting
    keysAtDist := [(1, 5)]
    received := [⟨5, 1⟩]
    selects := 1 }

/-- A schedule after the timeout: the collector takes the waiting result,
worker 0 sees the context done at its `select`, the collector leaves its loop,
worker 1 leaves its loop. -/
def demoDoneSchedule : List (Event Nat) :=
  [ Event.collectorRecv, Event.workerCtxDone 0, Event.collectorLoop,
    Event.workerLoop 1 (some 9) ]

end Observer

/-! # Theorems -/

namespace Observer

/-- C6: the `RunE` handler returns nil when the run function's error is nil or
matches `context.Canceled`, returns the run function's error unchanged in every
other case, and `main` is fatal exactly for a non-nil error that does not match
`context.Canceled`. -/
theorem RunE_cancellation_is_clean {E C : Type} (errorsIs : Option E → E → Bool)
    (canceled : E) (runFunc : C → CommandFlags → Option E) (ctx : C)
    (flags : CommandFlags) :
    ((runFunc ctx flags = none ∨ errorsIs (runFunc ctx flags) canceled = true) →
        RunE errorsIs canceled runFunc ctx flags = none)
    ∧ (¬ (runFunc ctx flags = none ∨ errorsIs (runFunc ctx flags) canceled = true) →
        RunE errorsIs canceled runFunc ctx flags = runFunc ctx flags)
    ∧ (∀ err : Option E, mainFatal errorsIs canceled err = true ↔
        (err ≠ none ∧ errorsIs err canceled = false)) := by
  refine ⟨?_, ?_, ?_⟩
  · intro h
    unfold RunE
    by_cases hc : errorsIs (runFunc ctx flags) canceled = true
    · simp [hc]
    · rcases h with h | h
      · simp [hc, h]
      · exact absurd h hc
  · intro h
    unfold RunE
    have hc : ¬ errorsIs (runFunc ctx flags) canceled = true := fun hc => h (Or.inr hc)
    simp [hc]
  · intro err
    unfold mainFatal
    cases err <;> simp

/-- C6 at concrete inputs: a wrapped cancellation becomes nil, a bind failure
is passed on and is fatal, a nil error stays nil and is not fatal. -/
theorem RunE_cancellation_is_clean_witness :
    RunE goErrorsIs contextCanceled
        (fun (_ : Unit) _ => some (GoError.wrapped "crawler" contextCanceled)) () demoFlags = none
    ∧ RunE goErrorsIs contextCanceled
        (fun (_ : Unit) _ => some (GoError.sentinel "bind")) () demoFlags
        = some (GoError.sentinel "bind")
    ∧ mainFatal goErrorsIs contextCanceled (some (GoError.sentinel "bind")) = true
    ∧ mainFatal goErrorsIs contextCanceled none = false := by
  refine ⟨?_, ?_, ?_, ?_⟩
  · exact (RunE_cancellation_is_clean goErrorsIs contextCanceled
      (fun (_ : Unit) _ => some (GoError.wrapped "crawler" contextCanceled)) () demoFlags).1
      (Or.inr (by decide))
  · exact (RunE_cancellation_is_clean goErrorsIs contextCanceled
      (fun (_ : Unit) _ => some (GoError.sentinel "bind")) () demoFlags).2.1
      (by decide)
  · decide
  · decide

/-- C7: `mainWithFlags` returns the error of the first failing step among
`NewServer`, `NewDBSQLite`, `Listen` and `NewCrawler` unchanged and makes no
call after it; `Run` is called exactly when all four succeed, and then its
result is what `mainWithFlags` returns. -/
theorem mainWithFlags_surfaces_first_failure {E C Server Store Disc Crawler Nodes Key : Type}
    (deps : MainDeps E C Server Store Disc Crawler Nodes Key) (ctx : C)
    (flags : CommandFlags) :
    (∀ e, deps.NewServer flags = Except.error e →
        mainWithFlags deps ctx flags = ([MainCall.NewServer], some e))
    ∧ (∀ server e, deps.NewServer flags = Except.ok server →
        deps.NewDBSQLite (deps.Join flags.DataDir "observer.sqlite") = Except.error e →
        mainWithFlags deps ctx flags = ([MainCall.NewServer, MainCall.NewDBSQLite], some e))
    ∧ (∀ server db e, deps.NewServer flags = Except.ok server →
        deps.NewDBSQLite (deps.Join flags.DataDir "observer.sqlite") = Except.ok db →
        deps.Listen server ctx = Except.error e →
        mainWithFlags deps ctx flags
          = ([MainCall.NewServer, MainCall.NewDBSQLite, MainCall.Listen], some e))
    ∧ (∀ server db discV4 e, deps.NewServer flags = Except.ok server →
        deps.NewDBSQLite (deps.Join flags.DataDir "observer.sqlite") = Except.ok db →
        deps.Listen server ctx = Except.ok discV4 →
        deps.NewCrawler discV4 db
          (crawlerConfig flags (deps.Bootnodes server) (deps.PrivateKey server))
          = Except.error e →
        mainWithFlags deps ctx flags
          = ([MainCall.NewServer, MainCall.NewDBSQLite, MainCall.Listen,
              MainCall.StatusLoggerLoop, MainCall.NewCrawler], some e))
    ∧ (∀ server db discV4 crawler, deps.NewServer flags = Except.ok server →
        deps.NewDBSQLite (deps.Join flags.DataDir "observer.sqlite") = Except.ok db →
        deps.Listen server ctx = Except.ok discV4 →
        deps.NewCrawler discV4 db
          (crawlerConfig flags (deps.Bootnodes server) (deps.PrivateKey server))
          = Except.ok crawler →
        mainWithFlags deps ctx flags
          = ([MainCall.NewServer, MainCall.NewDBSQLite, MainCall.Listen,
              MainCall.StatusLoggerLoop, MainCall.NewCrawler, MainCall.Run],
             deps.Run crawler ctx))
    ∧ (MainCall.Run ∈ (mainWithFlags deps ctx flags).1 ↔
        ∃ server db discV4 crawler, deps.NewServer flags = Except.ok server ∧
          deps.NewDBSQLite (deps.Join flags.DataDir "observer.sqlite") = Except.ok db ∧
          deps.Listen server ctx = Except.ok discV4 ∧
          deps.NewCrawler discV4 db
            (crawlerConfig flags (deps.Bootnodes server) (deps.PrivateKey server))
            = Except.ok crawler) := by
  refine ⟨?_, ?_, ?_, ?_, ?_, ?_⟩
  · intro e h1
    simp [mainWithFlags, logged, h1]
  · intro server e h1 h2
    simp [mainWithFlags, logged, h1, h2]
  · intro server db e h1 h2 h3
    simp [mainWithFlags, logged, h1, h2, h3]
  · intro server db discV4 e h1 h2 h3 h4
    simp [mainWithFlags, logged, h1, h2, h3, h4]
  · intro server db discV4 crawler h1 h2 h3 h4
    simp [mainWithFlags, logged, h1, h2, h3, h4]
  · cases h1 : deps.NewServer flags with
    | error e => simp [mainWithFlags, logged, h1]
    | ok server =>
      cases h2 : deps.NewDBSQLite (deps.Join flags.DataDir "observer.sqlite") with
      | error e => simp [mainWithFlags, logged, h1, h2]
      | ok db =>
        cases h3 : deps.Listen server ctx with
        | error e => simp [mainWithFlags, logged, h1, h2, h3]
        | ok discV4 =>
          cases h4 : deps.NewCrawler discV4 db
              (crawlerConfig flags (deps.Bootnodes server) (deps.PrivateKey server)) with
          | error e => simp [mainWithFlags, logged, h1, h2, h3, h4]
          | ok crawler => simp [mainWithFlags, logged, h1, h2, h3, h4]

/-- C7 at concrete inputs: a listener that cannot bind is surfaced after three
calls, and with every step succeeding the result of `Run` is returned. -/
theorem mainWithFlags_surfaces_first_failure_witness :
    mainWithFlags demoDepsListenFails () demoFlags
      = ([MainCall.NewServer, MainCall.NewDBSQLite, MainCall.Listen],
         some (GoError.sentinel "bind: address in use"))
    ∧ mainWithFlags demoDepsOk () demoFlags
      = ([MainCall.NewServer, MainCall.NewDBSQLite, MainCall.Listen,
          MainCall.StatusLoggerLoop, MainCall.NewCrawler, MainCall.Run],
         some (GoError.wrapped "crawler" contextCanceled)) :=
  ⟨(mainWithFlags_surfaces_first_failure demoDepsListenFails () demoFlags).2.2.1
      () () (GoError.sentinel "bind: address in use") rfl rfl rfl,
   (mainWithFlags_surfaces_first_failure demoDepsOk () demoFlags).2.2.2.2.1
      () () () () rfl rfl rfl rfl⟩

end Observer

namespace Reports

/-- C8: when both counts succeed `CreateStatusReport` returns the report with
`TotalCount` from `CountNodes` and `DistinctIPCount` from `CountIPs` and a nil
error; when `CountNodes` fails it returns a nil report and that error without
calling `CountIPs`; when `CountIPs` fails it returns a nil report and that
error. -/
theorem CreateStatusReport_faithful {E C : Type} (ctx : C) (db : DB E C) :
    (∀ n m, db.CountNodes ctx = Except.ok n → db.CountIPs ctx = Except.ok m →
        CreateStatusReport ctx db
          = ([DBCall.CountNodes, DBCall.CountIPs],
             (some { TotalCount := n, DistinctIPCount := m }, none)))
    ∧ (∀ e, db.CountNodes ctx = Except.error e →
        CreateStatusReport ctx db = ([DBCall.CountNodes], (none, some e)))
    ∧ (∀ n e, db.CountNodes ctx = Except.ok n → db.CountIPs ctx = Except.error e →
        CreateStatusReport ctx db
          = ([DBCall.CountNodes, DBCall.CountIPs], (none, some e))) := by
  refine ⟨?_, ?_, ?_⟩
  · intro n m h1 h2
    simp [CreateStatusReport, Observer.logged, h1, h2]
  · intro e h1
    simp [CreateStatusReport, Observer.logged, h1]
  · intro n e h1 h2
    simp [CreateStatusReport, Observer.logged, h1, h2]

/-- C8 at concrete stores: one that answers both counts, one whose node count
fails, one whose address count fails. -/
theorem CreateStatusReport_faithful_witness :
    CreateStatusReport () demoDB
      = ([DBCall.CountNodes, DBCall.CountIPs],
         (some { TotalCount := 120, DistinctIPCount := 95 }, none))
    ∧ CreateStatusReport () demoDBNodesFail
      = ([DBCall.CountNodes], (none, some "no such table: nodes"))
    ∧ CreateStatusReport () demoDBIPsFail
      = ([DBCall.CountNodes, DBCall.CountIPs], (none, some "database is locked")) :=
  ⟨(CreateStatusReport_faithful () demoDB).1 120 95 rfl rfl,
   (CreateStatusReport_faithful () demoDBNodesFail).2.1 "no such table: nodes" rfl,
   (CreateStatusReport_faithful () demoDBIPsFail).2.2 120 "database is locked" rfl rfl⟩

end Reports

namespace Cltypes

/-- `bytes.Equal` decides equality of the two byte sequences. -/
theorem bytesEqual_iff (a b : List Byte) : bytesEqual a b = true ↔ a = b := by
  induction a generalizing b with
  | nil => cases b <;> simp [bytesEqual]
  | cons x xs ih =>
    cases b with
    | nil => simp [bytesEqual]
    | cons y ys => simp [bytesEqual, ih]

/-- The loop of `Equal` from index `i` on answers true exactly when the two
lists agree at every index from `i` on. -/
theorem equalFrom_iff (a b : List Bytes48) (hlen : a.length = b.length) (i : Nat) :
    SyncCommittee.equalFrom a b hlen i = true ↔
      ∀ j (hj : j < a.length), i ≤ j → a.get ⟨j, hj⟩ = b.get ⟨j, hlen ▸ hj⟩ := by
  generalize hn : a.length - i = n
  induction n generalizing i with
  | zero =>
    unfold SyncCommittee.equalFrom
    have hi : ¬ i < a.length := by omega
    simp only [hi, dite_false, true_iff]
    intro j hj hij
    omega
  | succ n ih =>
    unfold SyncCommittee.equalFrom
    have hi : i < a.length := by omega
    simp only [hi, dite_true]
    by_cases hb : bytesEqual (a.get ⟨i, hi⟩).val (b.get ⟨i, hlen ▸ hi⟩).val = true
    · simp only [hb, Bool.not_true, Bool.false_eq_true, if_false]
      rw [ih (i + 1) (by omega)]
      constructor
      · intro H j hj hij
        rcases Nat.eq_or_lt_of_le hij with heq | hlt
        · subst heq
          exact Subtype.ext ((bytesEqual_iff _ _).1 hb)
        · exact H j hj hlt
      · intro H j hj hij
        exact H j hj (by omega)
    · have hb' : bytesEqual (a.get ⟨i, hi⟩).val (b.get ⟨i, hlen ▸ hi⟩).val = false := by
        simpa using hb
      simp only [hb', Bool.not_false, if_true, Bool.false_eq_true, false_iff]
      intro H
      apply hb
      rw [bytesEqual_iff, H i hi (le_refl i)]

/-- `Equal` answers true exactly on equal committees. -/
theorem SyncCommittee.Equal_iff_eq (s s2 : SyncCommittee) :
    SyncCommittee.Equal s s2 = true ↔ s = s2 := by
  unfold SyncCommittee.Equal
  by_cases hagg : bytesEqual s.AggregatePublicKey.val s2.AggregatePublicKey.val = true
  · have hA : s.AggregatePublicKey = s2.AggregatePublicKey :=
      Subtype.ext ((bytesEqual_iff _ _).1 hagg)
    simp only [hagg, Bool.not_true, Bool.false_eq_true, if_false]
    by_cases hlen : s.PubKeys.length = s2.PubKeys.length
    · have hnn : ¬ (s.PubKeys.length ≠ s2.PubKeys.length) := not_not.mpr hlen
      simp only [hnn, dite_false]
      rw [equalFrom_iff]
      constructor
      · intro H
        have hP : s.PubKeys = s2.PubKeys := by
          apply List.ext_get hlen
          intro n h1 h2
          exact H n h1 (Nat.zero_le n)
        cases s
        cases s2
        simp_all
      · intro H j hj _
        subst H
        rfl
    · simp only [hlen, ne_eq, not_false_eq_true, dite_true, Bool.false_eq_true, false_iff]
      intro H
      exact hlen (by rw [H])
  · have hagg' : bytesEqual s.AggregatePublicKey.val s2.AggregatePublicKey.val = false := by
      simpa using hagg
    simp only [hagg', Bool.not_false, if_true, Bool.false_eq_true, false_iff]
    intro H
    apply hagg
    rw [bytesEqual_iff, H]

/-- C10: on non-nil committees `Equal` is true exactly when the aggregate keys
are equal, the key lists have the same length and the keys at every index are
equal byte for byte; hence `Equal` is reflexive, symmetric and transitive. -/
theorem SyncCommittee_Equal_structural :
    (∀ s s2 : SyncCommittee, SyncCommittee.Equal s s2 = true ↔
        (s.AggregatePublicKey.val = s2.AggregatePublicKey.val
          ∧ s.PubKeys.length = s2.PubKeys.length
          ∧ ∀ i, i < s.PubKeys.length →
              (s.PubKeys[i]?).map Subtype.val = (s2.PubKeys[i]?).map Subtype.val))
    ∧ (∀ s : SyncCommittee, SyncCommittee.Equal s s = true)
    ∧ (∀ s s2 : SyncCommittee, SyncCommittee.Equal s s2 = SyncCommittee.Equal s2 s)
    ∧ (∀ s s2 s3 : SyncCommittee, SyncCommittee.Equal s s2 = true →
        SyncCommittee.Equal s2 s3 = true → SyncCommittee.Equal s s3 = true) := by
  refine ⟨?_, ?_, ?_, ?_⟩
  · intro s s2
    rw [SyncCommittee.Equal_iff_eq]
    constructor
    · intro H
      subst H
      exact ⟨rfl, rfl, fun _ _ => rfl⟩
    · rintro ⟨hA, hlen, hK⟩
      have hP : s.PubKeys = s2.PubKeys := by
        apply List.ext_getElem? 
        intro i
        by_cases hi : i < s.PubKeys.length
        · have h := hK i hi
          have hi2 : i < s2.PubKeys.length := hlen ▸ hi
          rw [List.getElem?_eq_getElem hi, List.getElem?_eq_getElem hi2] at h ⊢
          simp only [Option.map_some', Option.some.injEq] at h
          exact congrArg some (Subtype.ext h)
        · have hi2 : ¬ i < s2.PubKeys.length := hlen ▸ hi
          rw [List.getElem?_eq_none (by omega), List.getElem?_eq_none (by omega)]
      cases s
      cases s2
      simp only [SyncCommittee.mk.injEq]
      exact ⟨hP, Subtype.ext hA⟩
  · intro s
    exact (SyncCommittee.Equal_iff_eq s s).2 rfl
  · intro s s2
    rw [Bool.eq_iff_iff, SyncCommittee.Equal_iff_eq, SyncCommittee.Equal_iff_eq]
    exact eq_comm
  · intro s s2 s3 h1 h2
    rw [SyncCommittee.Equal_iff_eq] at *
    exact h1.trans h2

/-- C10 at concrete committees: equal to itself, not equal to one that differs
in the second key. -/
theorem SyncCommittee_Equal_structural_witness :
    SyncCommittee.Equal demoCommittee demoCommittee = true
    ∧ SyncCommittee.Equal demoCommittee demoCommitteeOther = false := by
  refine ⟨SyncCommittee_Equal_structural.2.1 demoCommittee, ?_⟩
  rw [← Bool.not_eq_true, SyncCommittee.Equal_iff_eq]
  decide

/-- When the state's own `HashTreeRoot` succeeds and `LatestBlockHeader` is not
nil, `BlockRoot` returns what `HashTreeRoot` gives on the temporary header. -/
theorem BlockRoot_of_state_root_ok {E Eth1DataT CheckpointT HeaderT : Type}
    (stateHashTreeRoot : BeaconStateBellatrix Eth1DataT CheckpointT HeaderT → Bytes32 × Option E)
    (headerHashTreeRoot : BeaconBlockHeader → Bytes32 × Option E)
    (b : BeaconStateBellatrix Eth1DataT CheckpointT HeaderT) (latest : BeaconBlockHeader)
    (hh : b.LatestBlockHeader = some latest) (hs : (stateHashTreeRoot b).2 = none) :
    BeaconStateBellatrix.BlockRoot stateHashTreeRoot headerHashTreeRoot b
      = some (headerHashTreeRoot
          { Slot := latest.Slot
            ProposerIndex := latest.ProposerIndex
            ParentRoot := latest.ParentRoot
            BodyRoot := latest.BodyRoot
            Root := (stateHashTreeRoot b).1 }) := by
  unfold BeaconStateBellatrix.BlockRoot
  simp [hs, hh]

/-- When the state's own `HashTreeRoot` fails, `BlockRoot` returns the zero
array together with a nil error. -/
theorem BlockRoot_of_state_root_error {E Eth1DataT CheckpointT HeaderT : Type}
    (stateHashTreeRoot : BeaconStateBellatrix Eth1DataT CheckpointT HeaderT → Bytes32 × Option E)
    (headerHashTreeRoot : BeaconBlockHeader → Bytes32 × Option E)
    (b : BeaconStateBellatrix Eth1DataT CheckpointT HeaderT) (e : E)
    (hs : (stateHashTreeRoot b).2 = some e) :
    BeaconStateBellatrix.BlockRoot stateHashTreeRoot headerHashTreeRoot b
      = some (zeroBytes32, none) := by
  unfold BeaconStateBellatrix.BlockRoot
  simp [hs]

/-- C9: at a state with a latest block header whose own `HashTreeRoot` fails,
`BlockRoot` returns a nil error and the zero array, which is not the
`HashTreeRoot` of the temporary header. -/
theorem BlockRoot_nil_error_without_block_root :
    (demoStateHashTreeRoot demoState).2 = some "incorrect vector length"
    ∧ demoState.LatestBlockHeader = some demoHeader
    ∧ BeaconStateBellatrix.BlockRoot demoStateHashTreeRoot demoHeaderHashTreeRoot demoState
        = some (zeroBytes32, none)
    ∧ (demoHeaderHashTreeRoot
        { Slot := demoHeader.Slot
          ProposerIndex := demoHeader.ProposerIndex
          ParentRoot := demoHeader.ParentRoot
          BodyRoot := demoHeader.BodyRoot
          Root := (demoStateHashTreeRoot demoState).1 }).1 ≠ zeroBytes32 := by
  refine ⟨by decide, rfl, ?_, by decide⟩
  exact BlockRoot_of_state_root_error _ _ _ "incorrect vector length" (by decide)

end Cltypes

namespace Observer

/-! ## keygen: the map -/

/-- Reading a map after a write. -/
theorem mapGet_mapSet {K : Type} (m : List (Int × K)) (d : Int) (k : K) (d' : Int) :
    mapGet (mapSet m d k) d' = if d = d' then some k else mapGet m d' := by
  induction m with
  | nil => simp [mapSet, mapGet]
  | cons p rest ih =>
    obtain ⟨d0, k0⟩ := p
    by_cases h0 : d0 = d
    · subst h0
      by_cases h1 : d0 = d' <;> simp [mapSet, mapGet, h1]
    · by_cases h1 : d0 = d'
      · subst h1
        have h2 : ¬ d = d0 := fun h => h0 h.symm
        simp [mapSet, mapGet, h0, h2]
      · simp [mapSet, mapGet, h0, h1, ih]

/-- An entry of a map after a write is the written one or an old one. -/
theorem mem_mapSet {K : Type} (m : List (Int × K)) (d : Int) (k : K) (p : Int × K)
    (hp : p ∈ mapSet m d k) : p = (d, k) ∨ p ∈ m := by
  induction m with
  | nil => simpa [mapSet] using hp
  | cons q rest ih =>
    obtain ⟨d0, k0⟩ := q
    by_cases h0 : d0 = d
    · simp only [mapSet, h0, if_true, List.mem_cons] at hp
      rcases hp with hp | hp
      · exact Or.inl hp
      · exact Or.inr (List.mem_cons_of_mem _ hp)
    · simp only [mapSet, h0, if_false, List.mem_cons] at hp
      rcases hp with hp | hp
      · exact Or.inr (hp ▸ List.mem_cons_self _ _)
      · rcases ih hp with h | h
        · exact Or.inl h
        · exact Or.inr (List.mem_cons_of_mem _ h)

/-- The distances of a map after a write. -/
theorem mem_keys_mapSet {K : Type} (m : List (Int × K)) (d : Int) (k : K) (d' : Int) :
    d' ∈ (mapSet m d k).map Prod.fst ↔ d' = d ∨ d' ∈ m.map Prod.fst := by
  induction m with
  | nil => simp [mapSet]
  | cons q rest ih =>
    obtain ⟨d0, k0⟩ := q
    by_cases h0 : d0 = d
    · subst h0
      simp [mapSet]
    · simp only [mapSet, h0, if_false, List.map_cons, List.mem_cons, ih]
      tauto

/-- A write keeps every distance at most once in the map. -/
theorem nodup_keys_mapSet {K : Type} (m : List (Int × K)) (d : Int) (k : K)
    (h : (m.map Prod.fst).Nodup) : ((mapSet m d k).map Prod.fst).Nodup := by
  induction m with
  | nil => simp [mapSet]
  | cons q rest ih =>
    obtain ⟨d0, k0⟩ := q
    simp only [List.map_cons, List.nodup_cons] at h
    by_cases h0 : d0 = d
    · subst h0
      simpa [mapSet] using h
    · simp only [mapSet, h0, if_false, List.map_cons, List.nodup_cons]
      refine ⟨?_, ih h.2⟩
      rw [mem_keys_mapSet]
      rintro (h1 | h1)
      · exact h0 h1
      · exact h.1 h1

/-- The size of a map after a write. -/
theorem length_mapSet {K : Type} (m : List (Int × K)) (d : Int) (k : K) :
    (mapSet m d k).length = if d ∈ m.map Prod.fst then m.length else m.length + 1 := by
  induction m with
  | nil => simp [mapSet]
  | cons q rest ih =>
    obtain ⟨d0, k0⟩ := q
    by_cases h0 : d0 = d
    · subst h0
      simp [mapSet]
    · have h1 : ¬ d = d0 := fun h => h0 h.symm
      simp only [mapSet, h0, if_false, List.length_cons, ih, List.map_cons, List.mem_cons, h1,
        false_or]
      split <;> rfl

/-- Taking one more result is one more write. -/
theorem collect_append_singleton {K : Type} (m : List (Int × K)) (rs : List (result K))
    (r : result K) : collect m (rs ++ [r]) = mapSet (collect m rs) r.distance r.key := by
  simp [collect, List.foldl_append]

/-- The last key at a distance after one more result. -/
theorem lastKeyAt_append_singleton {K : Type} (rs : List (result K)) (r : result K) (d : Int) :
    lastKeyAt (rs ++ [r]) d = if r.distance = d then some r.key else lastKeyAt rs d := by
  unfold lastKeyAt
  by_cases h : r.distance = d
  · simp [List.filter_append, h, List.filter_cons]
  · simp [List.filter_append, h, List.filter_cons]

/-- The collector's map read at `d` is the key of the last result at `d`. -/
theorem mapGet_collect {K : Type} (rs : List (result K)) (d : Int) :
    mapGet (collect [] rs) d = lastKeyAt rs d := by
  induction rs using List.reverseRecOn with
  | nil => simp [collect, mapGet, lastKeyAt]
  | append_singleton rs r ih =>
    rw [collect_append_singleton, mapGet_mapSet, lastKeyAt_append_singleton, ih]

/-- No result at `d` means no last key at `d`. -/
theorem lastKeyAt_eq_none {K : Type} (rs : List (result K)) (d : Int)
    (h : ∀ r ∈ rs, r.distance ≠ d) : lastKeyAt rs d = none := by
  unfold lastKeyAt
  have : rs.filter (fun r => decide (r.distance = d)) = [] := by
    rw [List.filter_eq_nil_iff]
    intro r hr
    simpa using h r hr
  simp [this]

/-- The distances in the collector's map are the distances of the results. -/
theorem mem_keys_collect {K : Type} (rs : List (result K)) (d : Int) :
    d ∈ (collect [] rs).map Prod.fst ↔ d ∈ rs.map (fun r => r.distance) := by
  induction rs using List.reverseRecOn with
  | nil => simp [collect]
  | append_singleton rs r ih =>
    rw [collect_append_singleton, mem_keys_mapSet, ih]
    simp only [List.map_append, List.map_cons, List.map_nil, List.mem_append, List.mem_singleton]
    tauto

/-- The collector's map holds every distance at most once. -/
theorem nodup_keys_collect {K : Type} (rs : List (result K)) :
    ((collect [] rs).map Prod.fst).Nodup := by
  induction rs using List.reverseRecOn with
  | nil => simp [collect]
  | append_singleton rs r ih =>
    rw [collect_append_singleton]
    exact nodup_keys_mapSet _ _ _ ih

/-- The size of the collector's map is the number of distinct distances. -/
theorem length_collect {K : Type} (rs : List (result K)) :
    (collect [] rs).length = (rs.map (fun r => r.distance)).toFinset.card := by
  have h1 : (collect [] rs).length = ((collect [] rs).map Prod.fst).toFinset.card := by
    rw [List.toFinset_card_of_nodup (nodup_keys_collect rs), List.length_map]
  rw [h1]
  congr 1
  ext d
  simp only [List.mem_toFinset]
  exact mem_keys_collect rs d

/-- Every entry of the collector's map comes from a result. -/
theorem mem_collect {K : Type} (rs : List (result K)) (p : Int × K)
    (hp : p ∈ collect [] rs) : ∃ r ∈ rs, p = (r.distance, r.key) := by
  induction rs using List.reverseRecOn with
  | nil => simp [collect] at hp
  | append_singleton rs r ih =>
    rw [collect_append_singleton] at hp
    rcases mem_mapSet _ _ _ _ hp with h | h
    · exact ⟨r, by simp, h⟩
    · obtain ⟨r', hr', hp'⟩ := ih h
      exact ⟨r', by simp [hr'], hp'⟩

end Observer

namespace Observer

/-! ## keygen: the invariant -/

/-- The worker loop starts `cpus - i` further workers, all at their loop head. -/
theorem spawnWorkers_eq {K : Type} (cpus i : Nat) (ws : List (WorkerPC K)) :
    spawnWorkers cpus i ws = ws ++ List.replicate (cpus - i) WorkerPC.loopHead := by
  generalize hn : cpus - i = n
  induction n generalizing i ws with
  | zero =>
    unfold spawnWorkers
    have : ¬ i < cpus := by omega
    simp [this]
  | succ n ih =>
    unfold spawnWorkers
    have hi : i < cpus := by omega
    simp only [hi, if_true]
    rw [ih (i + 1) _ (by omega)]
    simp [List.replicate_succ]

/-- The workers `keygen` starts: as many as `runtime.GOMAXPROCS(-1)` says. -/
theorem keygenStart_workers {K : Type} (gomaxprocs : Nat) :
    (keygenStart K gomaxprocs).workers = List.replicate gomaxprocs WorkerPC.loopHead := by
  simp [keygenStart, spawnWorkers_eq]

/-- A worker found at its `select` after one worker changed place. -/
theorem selecting_mem_set {K : Type} (ws : List (WorkerPC K)) (i : Nat) (w : WorkerPC K)
    (r : result K) (h : WorkerPC.selecting r ∈ ws.set i w) :
    w = WorkerPC.selecting r ∨ WorkerPC.selecting r ∈ ws := by
  rcases List.mem_or_eq_of_mem_set h with h | h
  · exact Or.inr h
  · exact Or.inl h.symm

/-- The invariant holds when `keygen` starts. -/
theorem keygenStart_Inv {K I : Type} (en : Enode K I) (targetKey : K) (gomaxprocs : Nat) :
    (keygenStart K gomaxprocs).Inv en targetKey := by
  refine ⟨?_, ?_, ?_, ?_⟩
  · intro r hr
    simp [keygenStart] at hr
  · intro r hr
    rw [keygenStart_workers] at hr
    have := List.eq_of_mem_replicate hr
    cases this
  · intro r hr
    simp [keygenStart] at hr
  · simp [keygenStart, collect]

/-- Every step keeps the invariant. -/
theorem step_Inv {K I : Type} (en : Enode K I) (targetKey : K) (s s1 : KeygenState K)
    (e : Event K) (h : s.Inv en targetKey) (hs : step en targetKey s e = some s1) :
    s1.Inv en targetKey := by
  obtain ⟨hch, hw, hrec, hmap⟩ := h
  cases e with
  | ctxDone =>
    simp only [step, Option.some.injEq] at hs
    subst hs
    exact ⟨hch, hw, hrec, hmap⟩
  | workerLoop i gen =>
    simp only [step] at hs
    split at hs
    · split at hs
      · simp only [Option.some.injEq] at hs
        subst hs
        refine ⟨hch, ?_, hrec, hmap⟩
        intro r hr
        rcases selecting_mem_set _ _ _ _ hr with h | h
        · cases h
        · exact hw r h
      · split at hs
        · simp only [Option.some.injEq] at hs
          subst hs
          refine ⟨hch, ?_, hrec, hmap⟩
          intro r hr
          rcases selecting_mem_set _ _ _ _ hr with h | h
          · cases h
          · exact hw r h
        · simp only [Option.some.injEq] at hs
          subst hs
          refine ⟨hch, ?_, hrec, hmap⟩
          intro r hr
          rcases selecting_mem_set _ _ _ _ hr with h | h
          · cases h
            rfl
          · exact hw r h
    · cases hs
  | workerSend i =>
    simp only [step] at hs
    split at hs
    · rename_i r hwi
      split at hs
      · simp only [Option.some.injEq] at hs
        subst hs
        have hr0 : r.Exact en targetKey := hw r (List.getElem?_mem hwi)
        refine ⟨?_, ?_, hrec, hmap⟩
        · intro r' hr'
          simp only [List.mem_append, List.mem_singleton] at hr'
          rcases hr' with h | h
          · exact hch r' h
          · exact h ▸ hr0
        · intro r' hr'
          rcases selecting_mem_set _ _ _ _ hr' with h | h
          · cases h
          · exact hw r' h
      · cases hs
    · cases hs
  | workerCtxDone i =>
    simp only [step] at hs
    split at hs
    · split at hs
      · simp only [Option.some.injEq] at hs
        subst hs
        refine ⟨hch, ?_, hrec, hmap⟩
        intro r' hr'
        rcases selecting_mem_set _ _ _ _ hr' with h | h
        · cases h
        · exact hw r' h
      · cases hs
    · cases hs
  | collectorLoop =>
    simp only [step] at hs
    split at hs
    · simp only [Option.some.injEq] at hs
      subst hs
      exact ⟨hch, hw, hrec, hmap⟩
    · cases hs
  | collectorRecv =>
    simp only [step] at hs
    split at hs
    · rename_i res rest hc hg
      simp only [Option.some.injEq] at hs
      subst hs
      have hres : res.Exact en targetKey := hch res (by rw [hg]; exact List.mem_cons_self _ _)
      refine ⟨?_, hw, ?_, ?_⟩
      · intro r hr
        exact hch r (by rw [hg]; exact List.mem_cons_of_mem _ hr)
      · intro r hr
        simp only [List.mem_append, List.mem_singleton] at hr
        rcases hr with h | h
        · exact hrec r h
        · exact h ▸ hres
      · simp only [collect_append_singleton, hmap]
    · cases hs
  | collectorCtxDone =>
    simp only [step] at hs
    split at hs
    · split at hs
      · simp only [Option.some.injEq] at hs
        subst hs
        exact ⟨hch, hw, hrec, hmap⟩
      · cases hs
    · cases hs

/-- Every schedule keeps the invariant. -/
theorem exec_Inv {K I : Type} (en : Enode K I) (targetKey : K) (es : List (Event K))
    (s : KeygenState K) (h : s.Inv en targetKey) : (exec en targetKey s es).Inv en targetKey := by
  induction es generalizing s with
  | nil => exact h
  | cons e es ih =>
    simp only [exec, List.foldl_cons]
    apply ih
    cases hs : step en targetKey s e with
    | none => simpa using h
    | some s1 => simpa using step_Inv en targetKey s s1 e h hs

end Observer

namespace Observer

/-! ## keygen: what is stored and returned -/

/-- What `keygen` returns is the list of values of the map. -/
theorem keygen_eq_some {K I : Type} (en : Enode K I) (gomaxprocs : Nat) (targetKey : K)
    (es : List (Event K)) (keys : List K) (h : keygen en gomaxprocs targetKey es = some keys) :
    keys = (exec en targetKey (keygenStart K gomaxprocs) es).keysAtDist.map Prod.snd := by
  unfold keygen keygenReturn at h
  split at h
  · exact (Option.some.inj h).symm
  · cases h

/-- Every entry of the map of a state that satisfies the invariant is exact. -/
theorem Inv_entry_exact {K I : Type} (en : Enode K I) (targetKey : K) (s : KeygenState K)
    (h : s.Inv en targetKey) (d : Int) (k : K) (hp : (d, k) ∈ s.keysAtDist) :
    en.LogDist (en.PubkeyToIDV4 targetKey) (en.PubkeyToIDV4 k) = d := by
  obtain ⟨_, _, hrec, hmap⟩ := h
  rw [hmap] at hp
  obtain ⟨r, hr, hpr⟩ := mem_collect _ _ hp
  have hd : d = r.distance := congrArg Prod.fst hpr
  have hk : k = r.key := congrArg Prod.snd hpr
  rw [hd, hk]
  exact hrec r hr

/-- The start state of a two-worker run, written out. -/
theorem keygenStart_two :
    keygenStart Nat 2 =
      { ctxDone := false, cpus := 2, generatedKeys := [],
        workers := [WorkerPC.loopHead, WorkerPC.loopHead],
        collector := CollectorPC.loopHead, keysAtDist := [], received := [], selects := 0 } := by
  simp [keygenStart, spawnWorkers_eq, List.replicate]

/-- The end state of the two-worker run `demoSchedule` towards target 4. -/
theorem exec_demoSchedule :
    exec demoEnode 4 (keygenStart Nat 2) demoSchedule =
      { ctxDone := true, cpus := 2, generatedKeys := [],
        workers := [WorkerPC.loopHead, WorkerPC.loopHead],
        collector := CollectorPC.exited, keysAtDist := [(2, 7), (1, 5)],
        received := [⟨6, 2⟩, ⟨5, 1⟩, ⟨7, 2⟩], selects := 3 } := by
  rw [keygenStart_two]
  decide

/-- C1: under every schedule of the workers, the collector and the context,
every key the map holds under distance `d` has log-distance `d` to the target,
and every key `keygen` returns is held in the map under its own log-distance to
the target. -/
theorem keygen_keys_at_exact_distance {K I : Type} (en : Enode K I) (gomaxprocs : Nat)
    (targetKey : K) (es : List (Event K)) :
    (∀ d k, (d, k) ∈ (exec en targetKey (keygenStart K gomaxprocs) es).keysAtDist →
        en.LogDist (en.PubkeyToIDV4 targetKey) (en.PubkeyToIDV4 k) = d)
    ∧ (∀ keys, keygen en gomaxprocs targetKey es = some keys → ∀ k ∈ keys,
        (en.LogDist (en.PubkeyToIDV4 targetKey) (en.PubkeyToIDV4 k), k)
          ∈ (exec en targetKey (keygenStart K gomaxprocs) es).keysAtDist) := by
  have hinv := exec_Inv en targetKey es _ (keygenStart_Inv en targetKey gomaxprocs)
  refine ⟨fun d k hp => Inv_entry_exact en targetKey _ hinv d k hp, ?_⟩
  intro keys hkeys k hk
  rw [keygen_eq_some en gomaxprocs targetKey es keys hkeys, List.mem_map] at hk
  obtain ⟨⟨d, k'⟩, hp, hk'⟩ := hk
  simp only at hk'
  subst hk'
  rw [Inv_entry_exact en targetKey _ hinv d k' hp]
  exact hp

/-- C1 at the run `demoSchedule` with target 4: the keys 7 and 5 are returned,
stored under 2 and 1, their log-distances to 4. -/
theorem keygen_keys_at_exact_distance_witness :
    keygen demoEnode 2 4 demoSchedule = some [7, 5]
    ∧ demoEnode.LogDist (demoEnode.PubkeyToIDV4 4) (demoEnode.PubkeyToIDV4 7) = 2
    ∧ demoEnode.LogDist (demoEnode.PubkeyToIDV4 4) (demoEnode.PubkeyToIDV4 5) = 1 := by
  have h := keygen_keys_at_exact_distance demoEnode 2 4 demoSchedule
  rw [exec_demoSchedule] at h
  refine ⟨?_, h.1 2 7 (by decide), h.1 1 5 (by decide)⟩
  unfold keygen
  rw [exec_demoSchedule]
  rfl

/-- C2: the key the collector retains for a distance `d` is the key of the last
received result whose distance is `d`, and none when no received result has
distance `d`; this holds for the results of every schedule and for every
sequence of results put through the collector's loop body. -/
theorem keygen_collector_keeps_last_key {K I : Type} (en : Enode K I) (gomaxprocs : Nat)
    (targetKey : K) (es : List (Event K)) (d : Int) :
    mapGet (exec en targetKey (keygenStart K gomaxprocs) es).keysAtDist d
        = lastKeyAt (exec en targetKey (keygenStart K gomaxprocs) es).received d
    ∧ ((∀ r ∈ (exec en targetKey (keygenStart K gomaxprocs) es).received, r.distance ≠ d) →
        mapGet (exec en targetKey (keygenStart K gomaxprocs) es).keysAtDist d = none)
    ∧ (∀ rs : List (result K), mapGet (collect [] rs) d = lastKeyAt rs d
        ∧ ((∀ r ∈ rs, r.distance ≠ d) → mapGet (collect [] rs) d = none)) := by
  have hinv := exec_Inv en targetKey es _ (keygenStart_Inv en targetKey gomaxprocs)
  obtain ⟨_, _, _, hmap⟩ := hinv
  refine ⟨?_, ?_, ?_⟩
  · rw [hmap, mapGet_collect]
  · intro h
    rw [hmap, mapGet_collect, lastKeyAt_eq_none _ _ h]
  · intro rs
    refine ⟨mapGet_collect rs d, fun h => ?_⟩
    rw [mapGet_collect, lastKeyAt_eq_none _ _ h]

/-- C2 at the run `demoSchedule`: distance 2 was seen with key 6 and later with
key 7 and keeps 7, distance 3 was never seen and has no key. -/
theorem keygen_collector_keeps_last_key_witness :
    (exec demoEnode 4 (keygenStart Nat 2) demoSchedule).received = [⟨6, 2⟩, ⟨5, 1⟩, ⟨7, 2⟩]
    ∧ mapGet (exec demoEnode 4 (keygenStart Nat 2) demoSchedule).keysAtDist 2 = some 7
    ∧ mapGet (exec demoEnode 4 (keygenStart Nat 2) demoSchedule).keysAtDist 3 = none := by
  refine ⟨by rw [exec_demoSchedule], ?_, ?_⟩
  · rw [(keygen_collector_keeps_last_key demoEnode 2 4 demoSchedule 2).1, exec_demoSchedule]
    decide
  · apply (keygen_collector_keeps_last_key demoEnode 2 4 demoSchedule 3).2.1
    rw [exec_demoSchedule]
    decide

/-- C3: under every schedule the map holds every observed distance exactly
once, so what `keygen` returns has as many keys as there are distinct observed
distances, has a key at each observed distance, and no two keys at different
places of the returned list have the same log-distance to the target. -/
theorem keygen_returns_one_key_per_distance {K I : Type} (en : Enode K I) (gomaxprocs : Nat)
    (targetKey : K) (es : List (Event K)) :
    ((exec en targetKey (keygenStart K gomaxprocs) es).keysAtDist.map Prod.fst).Nodup
    ∧ (∀ d, d ∈ (exec en targetKey (keygenStart K gomaxprocs) es).keysAtDist.map Prod.fst ↔
        d ∈ (exec en targetKey (keygenStart K gomaxprocs) es).received.map (fun r => r.distance))
    ∧ (∀ keys, keygen en gomaxprocs targetKey es = some keys →
        keys.length
            = ((exec en targetKey (keygenStart K gomaxprocs) es).received.map
                (fun r => r.distance)).toFinset.card
        ∧ (∀ d, d ∈ (exec en targetKey (keygenStart K gomaxprocs) es).received.map
                (fun r => r.distance) →
            ∃ k, k ∈ keys ∧ en.LogDist (en.PubkeyToIDV4 targetKey) (en.PubkeyToIDV4 k) = d)
        ∧ keys.Pairwise (fun k1 k2 =>
            en.LogDist (en.PubkeyToIDV4 targetKey) (en.PubkeyToIDV4 k1)
              ≠ en.LogDist (en.PubkeyToIDV4 targetKey) (en.PubkeyToIDV4 k2))) := by
  have hinv := exec_Inv en targetKey es _ (keygenStart_Inv en targetKey gomaxprocs)
  have hmap := hinv.2.2.2
  have hnd : ((exec en targetKey (keygenStart K gomaxprocs) es).keysAtDist.map Prod.fst).Nodup := by
    rw [hmap]
    exact nodup_keys_collect _
  refine ⟨hnd, ?_, ?_⟩
  · intro d
    rw [hmap]
    exact mem_keys_collect _ d
  · intro keys hkeys
    rw [keygen_eq_some en gomaxprocs targetKey es keys hkeys]
    refine ⟨?_, ?_, ?_⟩
    · rw [List.length_map, hmap]
      exact length_collect _
    · intro d hd
      have hd1 : d ∈ (exec en targetKey (keygenStart K gomaxprocs) es).keysAtDist.map Prod.fst := by
        rw [hmap]
        exact (mem_keys_collect _ d).2 hd
      rw [List.mem_map] at hd1
      obtain ⟨⟨d0, k⟩, hp, hd0⟩ := hd1
      simp only at hd0
      subst hd0
      exact ⟨k, List.mem_map.2 ⟨(d0, k), hp, rfl⟩, Inv_entry_exact en targetKey _ hinv d0 k hp⟩
    · rw [List.pairwise_map]
      have hp : (exec en targetKey (keygenStart K gomaxprocs) es).keysAtDist.Pairwise
          (fun a b => a.1 ≠ b.1) := by
        have := hnd
        rwa [List.Nodup, List.pairwise_map] at this
      refine List.Pairwise.imp_of_mem ?_ hp
      intro a b ha hb hab
      rw [Inv_entry_exact en targetKey _ hinv a.1 a.2 ha,
        Inv_entry_exact en targetKey _ hinv b.1 b.2 hb]
      exact hab

/-- C3 at the run `demoSchedule`: three results with the two distances 2 and 1
give two returned keys. -/
theorem keygen_returns_one_key_per_distance_witness :
    keygen demoEnode 2 4 demoSchedule = some [7, 5]
    ∧ ([7, 5] : List Nat).length
        = ((exec demoEnode 4 (keygenStart Nat 2) demoSchedule).received.map
            (fun r => r.distance)).toFinset.card := by
  have hk : keygen demoEnode 2 4 demoSchedule = some [7, 5] := by
    unfold keygen
    rw [exec_demoSchedule]
    rfl
  exact ⟨hk, ((keygen_returns_one_key_per_distance demoEnode 2 4 demoSchedule).2.2 [7, 5] hk).1⟩

/-- The number of workers `keygen` starts is `runtime.GOMAXPROCS(-1)`. -/
theorem keygenStart_workers_length {K : Type} (gomaxprocs : Nat) :
    (keygenStart K gomaxprocs).workers.length = gomaxprocs := by
  rw [keygenStart_workers, List.length_replicate]

/-- C5: with the default flags the crawler configuration carries
`KeygenConcurrency = 2`, and on a machine where `runtime.GOMAXPROCS(-1)` is 8
`keygen` starts 8 workers and gives the channel capacity 8. -/
theorem keygen_workers_not_KeygenConcurrency :
    demoFlags.KeygenConcurrency = 2
    ∧ (crawlerConfig demoFlags () () : CrawlerConfig Unit Unit).KeygenConcurrency = 2
    ∧ (keygenStart Nat 8).workers.length = 8
    ∧ (keygenStart Nat 8).cpus = 8 :=
  ⟨rfl, rfl, keygenStart_workers_length 8, rfl⟩

end Observer

namespace Observer

/-! ## keygen: after the context is done -/

/-- A state with the context done stands in `AfterDone` to itself. -/
theorem AfterDone_refl {K : Type} (s : KeygenState K) (h : s.ctxDone = true) :
    s.AfterDone s :=
  ⟨h, rfl, le_refl _, le_refl _, [], by simp, by simp [collect], by simp⟩

/-- Every step keeps `AfterDone` to the state in which the context was done. -/
theorem step_AfterDone {K I : Type} (en : Enode K I) (targetKey : K)
    (s s1 s2 : KeygenState K) (e : Event K) (h : s.AfterDone s1)
    (hs : step en targetKey s1 e = some s2) : s.AfterDone s2 := by
  obtain ⟨hd, hwl, hrem, hsel, extra, hrec, hmap, hlen⟩ := h
  cases e with
  | ctxDone =>
    simp only [step, Option.some.injEq] at hs
    subst hs
    exact ⟨rfl, hwl, hrem, hsel, extra, hrec, hmap, hlen⟩
  | workerLoop i gen =>
    simp only [step, hd, if_true] at hs
    split at hs
    · simp only [Option.some.injEq] at hs
      subst hs
      exact ⟨rfl, by simpa using hwl, hrem, hsel, extra, hrec, hmap, hlen⟩
    · cases hs
  | workerSend i =>
    simp only [step] at hs
    split at hs
    · split at hs
      · simp only [Option.some.injEq] at hs
        subst hs
        exact ⟨hd, by simpa using hwl, hrem, hsel, extra, hrec, hmap, hlen⟩
      · cases hs
    · cases hs
  | workerCtxDone i =>
    simp only [step, hd, if_true] at hs
    split at hs
    · simp only [Option.some.injEq] at hs
      subst hs
      exact ⟨rfl, by simpa using hwl, hrem, hsel, extra, hrec, hmap, hlen⟩
    · cases hs
  | collectorLoop =>
    simp only [step, hd, if_true] at hs
    split at hs
    · rename_i hc
      simp only [Option.some.injEq] at hs
      subst hs
      rw [hc] at hsel hlen
      exact ⟨rfl, hwl, Nat.zero_le _, hsel, extra, hrec, hmap, hlen⟩
    · cases hs
  | collectorRecv =>
    simp only [step] at hs
    split at hs
    · rename_i res rest hc hg
      simp only [Option.some.injEq] at hs
      subst hs
      rw [hc] at hsel hlen hrem
      have hrem2 : 2 ≤ s.collector.remaining := hrem
      have hsel2 : s1.selects + 1 ≤ s.selects + s.collector.pendingSelects := hsel
      have hlen2 : extra.length + 1 ≤ s.collector.pendingSelects := hlen
      refine ⟨hd, hwl, ?_, ?_, extra ++ [res], ?_, ?_, ?_⟩
      · show 1 ≤ s.collector.remaining
        omega
      · show s1.selects + 1 + 0 ≤ s.selects + s.collector.pendingSelects
        omega
      · show s1.received ++ [res] = s.received ++ (extra ++ [res])
        rw [hrec, List.append_assoc]
      · show mapSet s1.keysAtDist res.distance res.key = collect s.keysAtDist (extra ++ [res])
        rw [hmap, collect_append_singleton]
      · show (extra ++ [res]).length + 0 ≤ s.collector.pendingSelects
        simp only [List.length_append, List.length_singleton]
        omega
    · cases hs
  | collectorCtxDone =>
    simp only [step, hd, if_true] at hs
    split at hs
    · rename_i hc
      simp only [Option.some.injEq] at hs
      subst hs
      rw [hc] at hsel hlen hrem
      have hrem2 : 2 ≤ s.collector.remaining := hrem
      have hsel2 : s1.selects + 1 ≤ s.selects + s.collector.pendingSelects := hsel
      have hlen2 : extra.length + 1 ≤ s.collector.pendingSelects := hlen
      refine ⟨rfl, hwl, ?_, ?_, extra, hrec, hmap, ?_⟩
      · show 1 ≤ s.collector.remaining
        omega
      · show s1.selects + 1 + 0 ≤ s.selects + s.collector.pendingSelects
        omega
      · show extra.length + 0 ≤ s.collector.pendingSelects
        omega
    · cases hs

/-- Every schedule keeps `AfterDone` to the state in which the context was
done. -/
theorem exec_AfterDone {K I : Type} (en : Enode K I) (targetKey : K) (s : KeygenState K)
    (es : List (Event K)) (s1 : KeygenState K) (h : s.AfterDone s1) :
    s.AfterDone (exec en targetKey s1 es) := by
  induction es generalizing s1 with
  | nil => exact h
  | cons e es ih =>
    simp only [exec, List.foldl_cons]
    apply ih
    cases hs : step en targetKey s1 e with
    | none => simpa using h
    | some s2 => simpa using step_AfterDone en targetKey s s1 s2 e h hs

/-- With the context done the collector is never blocked: outside the exit it
has an enabled move. -/
theorem collector_enabled {K I : Type} (en : Enode K I) (targetKey : K) (s : KeygenState K)
    (hd : s.ctxDone = true) (hc : s.collector ≠ CollectorPC.exited) :
    ∃ e s1, Event.isCollector e = true ∧ step en targetKey s e = some s1 := by
  cases hpc : s.collector with
  | loopHead =>
    refine ⟨Event.collectorLoop, ?_⟩
    simp [step, hpc, Event.isCollector]
  | selecting =>
    refine ⟨Event.collectorCtxDone, ?_⟩
    simp [step, hpc, hd, Event.isCollector]
  | exited => exact absurd hpc hc

/-- With the context done every move of the collector brings it closer to its
exit. -/
theorem collector_progress {K I : Type} (en : Enode K I) (targetKey : K)
    (s s1 : KeygenState K) (e : Event K) (hd : s.ctxDone = true)
    (he : Event.isCollector e = true) (hs : step en targetKey s e = some s1) :
    s1.collector.remaining < s.collector.remaining := by
  cases e with
  | ctxDone => cases he
  | workerLoop i gen => cases he
  | workerSend i => cases he
  | workerCtxDone i => cases he
  | collectorLoop =>
    simp only [step, hd, if_true] at hs
    split at hs
    · rename_i hc
      simp only [Option.some.injEq] at hs
      subst hs
      simp [hc, CollectorPC.remaining]
    · cases hs
  | collectorRecv =>
    simp only [step] at hs
    split at hs
    · rename_i res rest hc hg
      simp only [Option.some.injEq] at hs
      subst hs
      simp [hc, CollectorPC.remaining]
    · cases hs
  | collectorCtxDone =>
    simp only [step, hd, if_true] at hs
    split at hs
    · rename_i hc
      simp only [Option.some.injEq] at hs
      subst hs
      simp [hc, CollectorPC.remaining]
    · cases hs

/-- With the context done the collector reaches its exit by at most two moves
of its own, and `keygen` then returns the values of the map. -/
theorem collector_exits {K I : Type} (en : Enode K I) (targetKey : K) (s : KeygenState K)
    (hd : s.ctxDone = true) :
    ∃ es : List (Event K), es.length ≤ 2 ∧ (∀ e ∈ es, Event.isCollector e = true)
      ∧ (exec en targetKey s es).keysAtDist = s.keysAtDist
      ∧ keygenReturn (exec en targetKey s es) = some (s.keysAtDist.map Prod.snd) := by
  cases hpc : s.collector with
  | loopHead =>
    refine ⟨[Event.collectorLoop], by simp, by simp [Event.isCollector], ?_, ?_⟩
    · simp [exec, step, hpc]
    · simp [exec, step, hpc, hd, keygenReturn]
  | selecting =>
    refine ⟨[Event.collectorCtxDone, Event.collectorLoop], by simp,
      by simp [Event.isCollector], ?_, ?_⟩
    · simp [exec, step, hpc, hd]
    · simp [exec, step, hpc, hd, keygenReturn]
  | exited =>
    refine ⟨[], by simp, by simp, rfl, ?_⟩
    simp [exec, keygenReturn, hpc]

/-- With the context done a worker is never blocked: outside the exit it has an
enabled move. -/
theorem worker_enabled {K I : Type} (en : Enode K I) (targetKey : K) (s : KeygenState K)
    (hd : s.ctxDone = true) (i : Nat) (w : WorkerPC K) (hw : s.workers[i]? = some w)
    (hne : w ≠ WorkerPC.exited) :
    ∃ e s1, Event.isWorker i e = true ∧ step en targetKey s e = some s1 := by
  cases w with
  | loopHead =>
    refine ⟨Event.workerLoop i none, ?_⟩
    simp [step, hw, hd, Event.isWorker]
  | selecting r =>
    refine ⟨Event.workerCtxDone i, ?_⟩
    simp [step, hw, hd, Event.isWorker]
  | exited => exact absurd rfl hne

/-- With the context done every move of a worker brings it closer to its exit. -/
theorem worker_progress {K I : Type} (en : Enode K I) (targetKey : K)
    (s s1 : KeygenState K) (e : Event K) (hd : s.ctxDone = true) (i : Nat) (w : WorkerPC K)
    (hw : s.workers[i]? = some w) (he : Event.isWorker i e = true)
    (hs : step en targetKey s e = some s1) :
    ∃ w1, s1.workers[i]? = some w1 ∧ w1.remaining < w.remaining := by
  have hi : i < s.workers.length := by
    rcases List.getElem?_eq_some.1 hw with ⟨h, _⟩
    exact h
  cases e with
  | ctxDone => cases he
  | collectorLoop => cases he
  | collectorRecv => cases he
  | collectorCtxDone => cases he
  | workerLoop j gen =>
    have hj : j = i := by simpa [Event.isWorker] using he
    subst hj
    simp only [step, hw, hd, if_true] at hs
    split at hs
    · rename_i heq
      simp only [Option.some.injEq] at hs
      subst hs
      cases heq
      exact ⟨WorkerPC.exited, by simp [hi], by simp [WorkerPC.remaining]⟩
    · cases hs
  | workerSend j =>
    have hj : j = i := by simpa [Event.isWorker] using he
    subst hj
    simp only [step, hw] at hs
    split at hs
    · rename_i r heq
      split at hs
      · simp only [Option.some.injEq] at hs
        subst hs
        cases heq
        exact ⟨WorkerPC.loopHead, by simp [hi], by simp [WorkerPC.remaining]⟩
      · cases hs
    · cases hs
  | workerCtxDone j =>
    have hj : j = i := by simpa [Event.isWorker] using he
    subst hj
    simp only [step, hw, hd, if_true] at hs
    split at hs
    · rename_i r heq
      simp only [Option.some.injEq] at hs
      subst hs
      cases heq
      exact ⟨WorkerPC.loopHead, by simp [hi], by simp [WorkerPC.remaining]⟩
    · cases hs

end Observer

namespace Observer

/-- C4: from any state in which the context is done, under every further
schedule: the context stays done; the collector completes at most one further
`select` and takes at most one further result; outside its exit the collector
always has an enabled move, each of its moves brings it closer to the exit, and
at most two of its moves lead to the exit, where `keygen` returns the values of
the map, a result without an error component; every worker outside its exit
always has an enabled move and each of its moves brings it closer to its
exit, which is at most two moves away. -/
theorem keygen_never_waits_past_context {K I : Type} (en : Enode K I) (targetKey : K)
    (s : KeygenState K) (es : List (Event K)) (hdone : s.ctxDone = true) :
    (exec en targetKey s es).ctxDone = true
    ∧ (exec en targetKey s es).selects ≤ s.selects + 1
    ∧ (∃ extra : List (result K), extra.length ≤ 1
        ∧ (exec en targetKey s es).received = s.received ++ extra
        ∧ (exec en targetKey s es).keysAtDist = collect s.keysAtDist extra)
    ∧ ((exec en targetKey s es).collector ≠ CollectorPC.exited →
        ∃ e s1, Event.isCollector e = true ∧ step en targetKey (exec en targetKey s es) e = some s1)
    ∧ (∀ e s1, Event.isCollector e = true →
        step en targetKey (exec en targetKey s es) e = some s1 →
        s1.collector.remaining < (exec en targetKey s es).collector.remaining)
    ∧ (exec en targetKey s es).collector.remaining ≤ 2
    ∧ (∃ es2 : List (Event K), es2.length ≤ 2 ∧ (∀ e ∈ es2, Event.isCollector e = true)
        ∧ keygenReturn (exec en targetKey (exec en targetKey s es) es2)
            = some ((exec en targetKey s es).keysAtDist.map Prod.snd))
    ∧ (∀ i w, (exec en targetKey s es).workers[i]? = some w →
        (w ≠ WorkerPC.exited →
          ∃ e s1, Event.isWorker i e = true
            ∧ step en targetKey (exec en targetKey s es) e = some s1)
        ∧ (∀ e s1, Event.isWorker i e = true →
            step en targetKey (exec en targetKey s es) e = some s1 →
            ∃ w1, s1.workers[i]? = some w1 ∧ w1.remaining < w.remaining)
        ∧ w.remaining ≤ 2) := by
  obtain ⟨hd, _, _, hsel, extra, hrec, hmap, hlen⟩ :=
    exec_AfterDone en targetKey s es s (AfterDone_refl s hdone)
  have hpend : s.collector.pendingSelects ≤ 1 := by
    cases s.collector <;> simp [CollectorPC.pendingSelects]
  refine ⟨hd, by omega, ⟨extra, by omega, hrec, hmap⟩, ?_, ?_, ?_, ?_, ?_⟩
  · exact collector_enabled en targetKey _ hd
  · intro e s1 he hs
    exact collector_progress en targetKey _ s1 e hd he hs
  · cases (exec en targetKey s es).collector <;> simp [CollectorPC.remaining]
  · obtain ⟨es2, h1, h2, _, h4⟩ := collector_exits en targetKey (exec en targetKey s es) hd
    exact ⟨es2, h1, h2, h4⟩
  · intro i w hw
    refine ⟨worker_enabled en targetKey _ hd i w hw, ?_, ?_⟩
    · intro e s1 he hs
      exact worker_progress en targetKey _ s1 e hd i w hw he hs
    · cases w <;> simp [WorkerPC.remaining]

/-- C4 at `demoDoneState`, where the timeout has fired with the collector at
its `select`: under `demoDoneSchedule` the collector completes one more
`select`, leaves its loop, and `keygen` returns the two keys. -/
theorem keygen_never_waits_past_context_witness :
    demoDoneState.ctxDone = true
    ∧ (exec demoEnode 4 demoDoneState demoDoneSchedule).selects ≤ demoDoneState.selects + 1
    ∧ keygenReturn (exec demoEnode 4 demoDoneState demoDoneSchedule) = some [5, 6]
    ∧ (exec demoEnode 4 demoDoneState demoDoneSchedule).workers
        = [WorkerPC.loopHead, WorkerPC.exited] :=
  ⟨rfl, (keygen_never_waits_past_context demoEnode 4 demoDoneState demoDoneSchedule rfl).2.1,
    by decide, by decide⟩

end Observer
